import Mathlib

/-!
Verification development for the archivindex-builder repository.

Shallow embedding of the parts of the code base that the verified claims
concern: the top-K grouped collector (`indexer/src/collector`), the digest
parser (`core/src/digest.rs`), SURT parsing and printing (`core/src/surt.rs`),
the downloader retry loop (`downloader/src/lib.rs`), the catalog insert
operations (`manager/src/db`), the content-addressed item store
(`store/src/items/mod.rs`), and query assembly (`indexer/src/query.rs`,
`indexer/src/lib.rs`).

Modelling conventions:
- Rust `&str` and `String` are modelled as `List Char` where character-level
  slicing matters, and as `String` where only equality is used.
- `f32` scores are modelled as `ℚ`.  No arithmetic is ever performed on
  scores in the embedded code, only comparisons, and comparisons of non-NaN
  `f32` values agree with the rational order.  The `None` result of
  `partial_cmp` corresponds exactly to a NaN operand, which has no
  counterpart in `ℚ`; where the source calls `partial_cmp(..).unwrap_or..`,
  the model keeps the same structure with a total comparison.
- Rust's stable `sort_by` is modelled by a stable insertion sort
  (`sortByStable`).  For the total preorders used in this code the stable
  sort result is unique, so this agrees with Rust's stable merge sort.
- `select_nth_unstable(n)` followed by `truncate(n)` is modelled by a full
  sort followed by `take n`, which is one valid refinement of the
  `select_nth_unstable` partition contract.
- SQLite plus sqlx is modelled by an explicit table state with
  upsert-returning statements and an explicit failure schedule; a statement
  sequence wrapped in a transaction rolls back to the initial state when any
  of its statements fails.
- The filesystem used by the item store is modelled as an association list
  from paths to file data.
-/

/-! ## Common helpers -/

deriving instance DecidableEq for Except

/-- Rust `PartialOrd::partial_cmp` on non-NaN floats / `Ord::cmp` on numbers,
as a total `Ordering`-valued comparison on `ℚ`. -/
def ratCmp (a b : ℚ) : Ordering :=
  if a < b then Ordering.lt else if b < a then Ordering.gt else Ordering.eq

/-- `Ord::cmp` for unsigned integers. -/
def natCmpO (a b : Nat) : Ordering :=
  if a < b then Ordering.lt else if b < a then Ordering.gt else Ordering.eq

/-- Stable insertion into a list sorted by the boolean relation `le`:
`a` is placed immediately before the first element `b` with `le a b`. -/
def orderedInsertBy (le : α → α → Bool) (a : α) : List α → List α
  | [] => [a]
  | b :: l => if le a b then a :: b :: l else b :: orderedInsertBy le a l

/-- Stable sort by the boolean relation `le`; models Rust's stable
`slice::sort_by` (whose result is unique for a total preorder). -/
def sortByStable (le : α → α → Bool) : List α → List α
  | [] => []
  | a :: l => orderedInsertBy le a (sortByStable le l)

/-! ## Collector: `indexer/src/collector/top_computer.rs` -/

/-- `tantivy::DocAddress`: segment ordinal plus in-segment document id.
Its derived `Ord` is lexicographic in field order. -/
structure DocAddress where
  segmentOrd : Nat
  docId : Nat
deriving DecidableEq, Repr

/-- Derived `Ord::cmp` for `DocAddress` (lexicographic). -/
def DocAddress.cmp (a b : DocAddress) : Ordering :=
  (natCmpO a.segmentOrd b.segmentOrd).then (natCmpO a.docId b.docId)

/-- `ComparableDoc<Score, u64, REVERSE_ORDER = false>` from
`top_computer.rs`, the only instantiation used by this crate (scores `f32`
as `ℚ`, docs `u64` as `Nat`). -/
structure ComparableDoc where
  feature : ℚ
  doc : Nat
deriving DecidableEq, Repr

/-- `Ord::cmp` for `ComparableDoc` with `REVERSE_ORDER = false`: compare by
feature (`partial_cmp` with the NaN-only `unwrap_or(Equal)` branch absent
over `ℚ`), break ties by `doc` ascending. -/
def ComparableDoc.cmp (a b : ComparableDoc) : Ordering :=
  (ratCmp a.feature b.feature).then (natCmpO a.doc b.doc)

/-- Boolean `≤` induced by `ComparableDoc.cmp`, used for sorting buffers. -/
def ComparableDoc.le (a b : ComparableDoc) : Bool :=
  ComparableDoc.cmp a b != Ordering.gt

/-- `TopNComputer<Score, u64, _>` state: buffer, requested `top_n`, and the
current culling threshold.  The Vec capacity is fixed at construction (the
buffer is never grown through `Vec::push`), so it is a function of `top_n`,
see `TopNComputer.cap`. -/
structure TopNComputer where
  buffer : List ComparableDoc
  topN : Nat
  threshold : Option ℚ
deriving DecidableEq, Repr

/-- The buffer capacity allocated by `TopNComputer::new`:
`top_n.max(1) * 2`.  `Vec::with_capacity` is modelled as allocating exactly
the requested capacity. -/
def TopNComputer.cap (s : TopNComputer) : Nat := 2 * max s.topN 1

/-- `TopNComputer::new`. -/
def TopNComputer.new (topN : Nat) : TopNComputer :=
  { buffer := [], topN := topN, threshold := none }

/-- `TopNComputer::truncate_top_n`: run `select_nth_unstable(top_n)`
(modelled as a full sort, a valid refinement of its partition contract),
read the median element's feature, truncate the buffer to `top_n`.
`select_nth_unstable` panics when `top_n ≥ buffer.len()`; every call site
guarantees `top_n < buffer.len()`, and the `getD` default is unreachable. -/
def TopNComputer.truncateTopN (s : TopNComputer) : ℚ × TopNComputer :=
  let sorted := sortByStable ComparableDoc.le s.buffer
  ((sorted.getD s.topN ⟨0, 0⟩).feature, { s with buffer := sorted.take s.topN })

/-- The shared tail of `TopNComputer::push` after the threshold check:
truncate on a full buffer (recording the median as the new threshold), then
perform the spare-capacity write, i.e. append the element. -/
def TopNComputer.pushRest (s : TopNComputer) (feature : ℚ) (doc : Nat) :
    TopNComputer :=
  let s1 :=
    if s.buffer.length = s.cap then
      let md := s.truncateTopN
      { md.2 with threshold := some md.1 }
    else s
  { s1 with buffer := s1.buffer ++ [⟨feature, doc⟩] }

/-- `TopNComputer::push`: drop features below the threshold, otherwise
truncate on a full buffer and append. -/
def TopNComputer.push (s : TopNComputer) (feature : ℚ) (doc : Nat) :
    TopNComputer :=
  match s.threshold with
  | some t => if feature < t then s else s.pushRest feature doc
  | none => s.pushRest feature doc

/-- The in-place update scan of `TopNComputer::push_or_update`: find the
first buffer entry with the given doc and raise its feature if the incoming
one is greater; `none` when no entry has this doc. -/
def updateDoc : List ComparableDoc → ℚ → Nat → Option (List ComparableDoc)
  | [], _, _ => none
  | c :: rest, f, d =>
    if c.doc = d then
      some ((if c.feature < f then { c with feature := f } else c) :: rest)
    else (updateDoc rest f d).map (fun l => c :: l)

/-- The part of `TopNComputer::push_or_update` after its threshold check:
update an existing entry for the doc, otherwise truncate on a full buffer
and `push` (which re-checks the threshold). -/
def TopNComputer.pushOrUpdateRest (s : TopNComputer) (feature : ℚ) (doc : Nat) :
    TopNComputer :=
  match updateDoc s.buffer feature doc with
  | some buf => { s with buffer := buf }
  | none =>
    let s1 :=
      if s.buffer.length = s.cap then
        let md := s.truncateTopN
        { md.2 with threshold := some md.1 }
      else s
    s1.push feature doc

/-- `TopNComputer::push_or_update`: threshold check, then
`pushOrUpdateRest`. -/
def TopNComputer.pushOrUpdate (s : TopNComputer) (feature : ℚ) (doc : Nat) :
    TopNComputer :=
  match s.threshold with
  | some t =>
    if feature < t then s else s.pushOrUpdateRest feature doc
  | none => s.pushOrUpdateRest feature doc

/-- `TopNComputer::into_sorted_vec`: truncate when over `top_n`, then
`sort_unstable` (entries have pairwise distinct `(feature, doc)` keys at the
call site, so the unstable sort result is the stable one). -/
def TopNComputer.intoSortedVec (s : TopNComputer) : List ComparableDoc :=
  let s1 := if s.topN < s.buffer.length then (s.truncateTopN).2 else s
  sortByStable ComparableDoc.le s1.buffer

/-- `TopNComputer::into_vec`: truncate when over `top_n`, keep stored
order. -/
def TopNComputer.intoVec (s : TopNComputer) : List ComparableDoc :=
  if s.topN < s.buffer.length then ((s.truncateTopN).2).buffer else s.buffer

/-- One call against a `TopNComputer`, for stating invariants over call
sequences. -/
inductive TopOp
  | push (feature : ℚ) (doc : Nat)
  | pushOrUpdate (feature : ℚ) (doc : Nat)
deriving DecidableEq, Repr

/-- Apply one call. -/
def TopNComputer.applyOp (s : TopNComputer) : TopOp → TopNComputer
  | TopOp.push f d => s.push f d
  | TopOp.pushOrUpdate f d => s.pushOrUpdate f d

/-- Run a sequence of calls against a fresh `TopNComputer::new(n)`. -/
def TopNComputer.runOps (n : Nat) (ops : List TopOp) : TopNComputer :=
  ops.foldl TopNComputer.applyOp (TopNComputer.new n)

/-- Run a sequence of `push_or_update` calls against a fresh
`TopNComputer::new(n)`. -/
def TopNComputer.runPushOrUpdates (n : Nat) (ops : List (ℚ × Nat)) :
    TopNComputer :=
  ops.foldl (fun s fd => s.pushOrUpdate fd.1 fd.2) (TopNComputer.new n)

/-- The index of the unchecked spare-capacity write performed by
`TopNComputer::push` from state `s` with the given feature, i.e. the buffer
length at the moment `uninit[0].write(..)` runs (after the optional
truncation); `none` when the push is dropped by the threshold check and no
write happens. -/
def TopNComputer.pushWriteIndex (s : TopNComputer) (feature : ℚ) : Option Nat :=
  match s.threshold with
  | some t =>
    if feature < t then none
    else some ((if s.buffer.length = s.cap then (s.truncateTopN).2 else s).buffer.length)
  | none =>
    some ((if s.buffer.length = s.cap then (s.truncateTopN).2 else s).buffer.length)

/-! ## Collector: `indexer/src/collector/mod.rs` -/

/-- A matched snapshot: `(Score, DocAddress)`. -/
abbrev ScoredDoc := ℚ × DocAddress

/-- `f32::partial_cmp` over the rational score model: always `some`; the
`none` result would correspond to a NaN operand, absent from `ℚ`. -/
def fPCmp (a b : ℚ) : Option Ordering := some (ratCmp a b)

/-- The comparator passed to `sort_by` in `Results::top`:
`Reverse(s1).partial_cmp(&Reverse(s2)).unwrap_or_else(|| d1.cmp(d2))`
(`Reverse(x).partial_cmp(&Reverse(y))` is `y.partial_cmp(&x)`).  The
doc-address fallback fires only when `partial_cmp` is `None`, i.e. in Rust
only for NaN scores. -/
def snapCmp (a b : ScoredDoc) : Ordering :=
  match fPCmp b.1 a.1 with
  | some o => o
  | none => DocAddress.cmp a.2 b.2

/-- Boolean `≤` induced by `snapCmp`, as used by the stable `sort_by`. -/
def snapLe (a b : ScoredDoc) : Bool := snapCmp a b != Ordering.gt

/-- `Results` from `collector/mod.rs`: per-query fruit with the top SURT
entries and the map from SURT id to every matched `(score, doc_address)`
(the `HashMap` is modelled as an association list; all per-key contents are
order-faithful, only the key iteration order is fixed arbitrarily). -/
structure Results where
  topN : List ComparableDoc
  all : List (Nat × List ScoredDoc)
deriving DecidableEq, Repr

/-- `Default::default()` for `Results`. -/
def Results.emptyR : Results := { topN := [], all := [] }

/-- `HashMap::remove(&doc)`: return the value for the key and the map
without it; `none` models the `unwrap` panic when the key is absent. -/
def assocRemove (k : Nat) :
    List (Nat × List ScoredDoc) →
    Option (List ScoredDoc × List (Nat × List ScoredDoc))
  | [] => none
  | (k', v) :: rest =>
    if k' = k then some (v, rest)
    else (assocRemove k rest).map (fun p => (p.1, (k', v) :: p.2))

/-- The iteration body of `Results::top`: for each top entry in order,
remove its snapshot list from `all` and sort it with `snapCmp`. -/
def Results.topAux :
    List ComparableDoc → List (Nat × List ScoredDoc) →
    Option (List (ℚ × Nat × List ScoredDoc))
  | [], _ => some []
  | c :: rest, all =>
    match assocRemove c.doc all with
    | none => none
    | some p =>
      match Results.topAux rest p.2 with
      | none => none
      | some tl => some ((c.feature, c.doc, sortByStable snapLe p.1) :: tl)

/-- `Results::top`.  `none` models the `unwrap` panic on a top entry whose
SURT id is missing from `all`. -/
def Results.top (r : Results) : Option (List (ℚ × Nat × List ScoredDoc)) :=
  Results.topAux r.topN r.all

/-- `HashMap::entry(..)`: extend the existing entry for the key or insert a
fresh one. -/
def assocExtend :
    List (Nat × List ScoredDoc) → Nat → List ScoredDoc →
    List (Nat × List ScoredDoc)
  | [], k, vs => [(k, vs)]
  | (k', v) :: rest, k, vs =>
    if k' = k then (k', v ++ vs) :: rest
    else (k', v) :: assocExtend rest k vs

/-- `Results::merge`: push every per-segment top entry through
`push_or_update` of a fresh `TopNComputer::new(count)`, concatenate the
per-SURT snapshot lists across segments, and sort the computer's buffer. -/
def Results.merge (allResults : List Results) (count : Nat) : Results :=
  let acc := allResults.foldl
    (fun (acc : TopNComputer × List (Nat × List ScoredDoc)) r =>
      (r.topN.foldl (fun t c => t.pushOrUpdate c.feature c.doc) acc.1,
       r.all.foldl (fun a kv => assocExtend a kv.1 kv.2) acc.2))
    (TopNComputer.new count, [])
  { topN := (acc.1).intoSortedVec, all := acc.2 }

/-! ## Collector: `indexer/src/collector/top_score_collector.rs` -/

/-- `TopDocs` collector parameters. -/
structure TopDocs where
  surtMap : List (DocAddress × Nat)
  limit : Nat
  offset : Nat
deriving DecidableEq, Repr

/-- `TopDocs::new`: `assert!(limit >= 1)`; `none` models the panic on
`limit = 0`. -/
def TopDocs.new (limit offset : Nat) (surtMap : List (DocAddress × Nat)) :
    Option TopDocs :=
  if 1 ≤ limit then some { surtMap := surtMap, limit := limit, offset := offset }
  else none

/-- `TopDocs::merge_fruits`: the empty result when `limit == 0`, otherwise
`Results::merge` at `limit + offset`. -/
def TopDocs.mergeFruits (td : TopDocs) (fruits : List Results) : Results :=
  if td.limit = 0 then Results.emptyR
  else Results.merge fruits (td.limit + td.offset)

/-! ## Digest parsing: `core/src/digest.rs` -/

/-- Value of one character in the RFC 4648 Base32 alphabet used by
`data_encoding::BASE32`. -/
def b32Val (c : Char) : Option Nat :=
  if 'A' ≤ c && c ≤ 'Z' then some (c.toNat - 'A'.toNat)
  else if '2' ≤ c && c ≤ '7' then some (c.toNat - '2'.toNat + 26)
  else none

/-- Big-endian byte expansion of a value into exactly `k` bytes. -/
def natToBytes : Nat → Nat → List Nat
  | 0, _ => []
  | k + 1, v => natToBytes k (v / 256) ++ [v % 256]

/-- The data lengths a padded Base32 block may have (8 minus a valid
padding length). -/
def b32AllowedDataLen (n : Nat) : Bool :=
  n = 2 || n = 4 || n = 5 || n = 7 || n = 8

/-- Decode one 8-character block of padded Base32, checking the padding
shape (`=` only as a suffix, only in the final block, only at the lengths
the encoding produces) and that the unused trailing bits are zero, as
`data_encoding`'s checked decoding does. -/
def b32DecodeBlock (cs : List Char) (isLast : Bool) : Except Unit (List Nat) :=
  let dataChars := cs.takeWhile (fun c => c != '=')
  if !((cs.drop dataChars.length).all (fun c => c == '=')) then Except.error ()
  else if dataChars.length < cs.length && !isLast then Except.error ()
  else if !(b32AllowedDataLen dataChars.length) then Except.error ()
  else
    match dataChars.mapM b32Val with
    | none => Except.error ()
    | some vals =>
      let value := vals.foldl (fun acc v => acc * 32 + v) 0
      let outLen := dataChars.length * 5 / 8
      let trailing := dataChars.length * 5 - outLen * 8
      if value % 2 ^ trailing = 0 then
        Except.ok (natToBytes outLen (value / 2 ^ trailing))
      else Except.error ()

/-- `data_encoding::BASE32.decode_mut`, on inputs whose length is a
multiple of 8 (the only use here has length 32): decode 8-character blocks
in order; the error carries no payload (`DecodePartial` is collapsed to
`Unit`). -/
def b32Decode : List Char → Except Unit (List Nat)
  | [] => Except.ok []
  | c0 :: c1 :: c2 :: c3 :: c4 :: c5 :: c6 :: c7 :: rest =>
    match b32DecodeBlock [c0, c1, c2, c3, c4, c5, c6, c7] rest.isEmpty with
    | Except.error e => Except.error e
    | Except.ok bs =>
      match b32Decode rest with
      | Except.error e => Except.error e
      | Except.ok bs2 => Except.ok (bs ++ bs2)
  | _ => Except.error ()

/-- `Digest` from `core/src/digest.rs`: a decoded 20-byte SHA-1 or an
opaque string kept verbatim. -/
inductive Digest
  | valid (bytes : List Nat)
  | invalid (s : List Char)
deriving DecidableEq, Repr

/-- The error cases of `Digest::from_str`; only the decoding failure is
reachable there. -/
inductive DigestError
  | decoding
deriving DecidableEq, Repr

/-- `Digest::from_str`: 32-character strings are Base32-decoded into a
20-byte buffer (a decoding failure is propagated as an error by the `?`
operator); a full 20-byte decode is `Valid`, a shorter one is `Invalid`;
any other length is `Invalid` verbatim. -/
def Digest.fromStr (s : List Char) : Except DigestError Digest :=
  if s.length = 32 then
    match b32Decode s with
    | Except.error _ => Except.error DigestError.decoding
    | Except.ok out =>
      if out.length = 20 then Except.ok (Digest.valid out)
      else Except.ok (Digest.invalid s)
  else Except.ok (Digest.invalid s)

/-! ## SURT parsing and printing: `core/src/surt.rs` -/

/-- `Surt`: reversed domain segments and a path. -/
structure Surt where
  domain : List (List Char)
  path : List Char
deriving DecidableEq, Repr

/-- Failure modes of `Surt::from_str`.  `indexPanic` models the byte-slice
panic `s[domain.len() + 1..]` that fires when the input contains no `)`. -/
inductive SurtError
  | invalidSurt
  | invalidDomainPart
  | indexPanic
deriving DecidableEq, Repr

/-- Rust `char::is_ascii_alphanumeric`. -/
def isAsciiAlphanumeric (c : Char) : Bool :=
  ('a' ≤ c && c ≤ 'z') || ('A' ≤ c && c ≤ 'Z') || ('0' ≤ c && c ≤ '9')

/-- `Surt::from_str`.  `String::to_lowercase` is modelled per-character by
`Char.toLower`; the check only gates which strings are accepted and does
not affect the accepted strings' round trip. -/
def Surt.fromStr (s : List Char) : Except SurtError Surt :=
  if s.map Char.toLower ≠ s then Except.error SurtError.invalidSurt
  else
    let domain := s.takeWhile (fun c => c != ')')
    let domainParts := domain.splitOn ','
    if domainParts.any (fun part =>
        part.any (fun ch => !(isAsciiAlphanumeric ch || ch = '-'))) then
      Except.error SurtError.invalidDomainPart
    else if s.length ≤ domain.length then Except.error SurtError.indexPanic
    else
      let path := s.drop (domain.length + 1)
      if path.head? ≠ some '/' then Except.error SurtError.invalidSurt
      else Except.ok { domain := domainParts, path := path }

/-- `Display for Surt`: domain parts joined by `,`, then `)`, then the
path. -/
def Surt.print (v : Surt) : List Char :=
  List.intercalate [','] v.domain ++ [')'] ++ v.path

/-! ## Downloader retry loop: `downloader/src/lib.rs` -/

/-- `downloader::Error`, with the data irrelevant to retry classification
dropped.  `client b` is `Error::Client(e)` with `b = e.is_body()`. -/
inductive DlError
  | io
  | client (isBody : Bool)
  | unexpectedRedirect
  | unexpectedRedirectUrl
  | unexpectedStatus (code : Nat)
  | invalidUtf8
deriving DecidableEq, Repr

/-- `reqwest::StatusCode::is_server_error`: `500..=599`. -/
def isServerError (code : Nat) : Bool := 500 ≤ code && code ≤ 599

/-- `MAX_RETRIES` from `downloader/src/lib.rs`. -/
def MAX_RETRIES : Nat := 7

/-- The retry condition closure passed to `RetryIf::spawn` in
`Downloader::download`, arm for arm: `UnexpectedStatus(429)`, then
`UnexpectedStatus(code)` guarded by `is_server_error`, then the two
`Client` arms (`is_body` guarded and the catch-all, both `true`), then the
catch-all `false`. -/
def shouldRetry : DlError → Bool
  | DlError.unexpectedStatus code =>
    if code = 429 then true else isServerError code
  | DlError.client _ => true
  | _ => false

/-- The retry predicate asserted by the specification: HTTP 429, an HTTP
5xx status, or a body-read error (`Client` errors with `is_body()` only). -/
def specRetryable : DlError → Bool
  | DlError.unexpectedStatus code =>
    if code = 429 then true else isServerError code
  | DlError.client isBody => isBody
  | _ => false

/-- The retry predicate the code actually implements, written as a direct
classification: HTTP 429, any HTTP 5xx status, or any HTTP client error
(body-read errors included). -/
def amendedRetryable (e : DlError) : Bool :=
  match e with
  | DlError.unexpectedStatus code => code == 429 || isServerError code
  | DlError.client _ => true
  | _ => false

/-- `tokio_retry::RetryIf::spawn` with a backoff strategy truncated to
`retriesLeft` further attempts: run the attempt; on a retryable error with
budget remaining, consume one strategy element and retry.  Returns the
result together with the total number of attempts made.  `attempts i` is
the outcome of the `i`-th call of the action closure. -/
def retryIfRun (attempts : Nat → Except DlError α) :
    Nat → Nat → Except DlError α × Nat
  | retriesLeft, i =>
    match attempts i with
    | Except.ok v => (Except.ok v, i + 1)
    | Except.error e =>
      if shouldRetry e then
        match retriesLeft with
        | 0 => (Except.error e, i + 1)
        | n + 1 => retryIfRun attempts n (i + 1)
      else (Except.error e, i + 1)

/-- `Downloader::download`: the retry loop with the strategy truncated to
`MAX_RETRIES`, then the 404-to-`None` translation of the final result.
Returns the result and the total number of attempts made. -/
def downloadRun (attempts : Nat → Except DlError α) :
    Except DlError (Option α) × Nat :=
  let r := retryIfRun attempts MAX_RETRIES 0
  match r.1 with
  | Except.ok v => (Except.ok (some v), r.2)
  | Except.error (DlError.unexpectedStatus 404) => (Except.ok none, r.2)
  | Except.error e => (Except.error e, r.2)

/-! ## Catalog inserts: `manager/src/db/{entry,surt,snapshot}.rs` -/

/-- The fields of a CDX entry that `entry::insert` writes (`key` is the
printed SURT, as produced by `entry.key.to_string()`). -/
structure CdxEntry where
  key : String
  original : String
  ts : Int
  digest : String
  mimeType : String
  statusCode : Option Nat
  length : Nat
deriving DecidableEq, Repr

/-- A row of the `entry` table; the full column tuple is covered by a
UNIQUE constraint. -/
structure EntryRow where
  url : String
  surtId : Nat
  ts : Int
  digest : String
  mimeType : String
  statusCode : Option Nat
  length : Nat
deriving DecidableEq, Repr

/-- A row of the `entry_success` table; `(entryId, snapshotId)` is covered
by a UNIQUE constraint. -/
structure SuccessRow where
  entryId : Nat
  snapshotId : Nat
  correctDigest : Bool
  ts : Int
deriving DecidableEq, Repr

/-- The catalog tables touched by the embedded operations. -/
structure Db where
  surt : List (Nat × String)
  entry : List (Nat × EntryRow)
  snapshot : List (Nat × String)
  entrySuccess : List (Nat × SuccessRow)
deriving DecidableEq, Repr

/-- The empty catalog. -/
def Db.empty : Db := { surt := [], entry := [], snapshot := [], entrySuccess := [] }

/-- A sample CDX entry for concrete executions. -/
def sampleCdxEntry : CdxEntry :=
  { key := "k", original := "u", ts := 0, digest := "d", mimeType := "m",
    statusCode := none, length := 0 }

/-- Next SQLite rowid for a table: one more than the largest id. -/
def nextId (table : List (Nat × α)) : Nat :=
  (table.map (fun r => r.1)).foldl max 0 + 1

/-- `surt::insert` (`INSERT .. ON CONFLICT DO UPDATE SET id = id RETURNING
id`): return the existing id for the value or append a fresh row. -/
def Db.surtInsert (db : Db) (value : String) : Nat × Db :=
  match db.surt.find? (fun r => r.2 == value) with
  | some r => (r.1, db)
  | none =>
    let id := nextId db.surt
    (id, { db with surt := db.surt ++ [(id, value)] })

/-- `snapshot::insert`: upsert-returning on the digest. -/
def Db.snapshotInsert (db : Db) (digest : String) : Nat × Db :=
  match db.snapshot.find? (fun r => r.2 == digest) with
  | some r => (r.1, db)
  | none =>
    let id := nextId db.snapshot
    (id, { db with snapshot := db.snapshot ++ [(id, digest)] })

/-- `entry::insert_entry`: upsert-returning on the full column tuple. -/
def Db.entryInsertRow (db : Db) (e : CdxEntry) (surtId : Nat) : Nat × Db :=
  let row : EntryRow :=
    { url := e.original, surtId := surtId, ts := e.ts, digest := e.digest,
      mimeType := e.mimeType, statusCode := e.statusCode, length := e.length }
  match db.entry.find? (fun r => decide (r.2 = row)) with
  | some r => (r.1, db)
  | none =>
    let id := nextId db.entry
    (id, { db with entry := db.entry ++ [(id, row)] })

/-- The `entry_success` upsert statement: upsert-returning on
`(entry_id, snapshot_id)`. -/
def Db.successInsertRow (db : Db) (entryId snapshotId : Nat)
    (correctDigest : Bool) (ts : Int) : Nat × Db :=
  match db.entrySuccess.find?
      (fun r => r.2.entryId == entryId && r.2.snapshotId == snapshotId) with
  | some r => (r.1, db)
  | none =>
    let id := nextId db.entrySuccess
    (id, { db with entrySuccess := db.entrySuccess ++
      [(id, { entryId := entryId, snapshotId := snapshotId,
              correctDigest := correctDigest, ts := ts })] })

/-- `entry::insert`: the surt upsert followed by the entry upsert, executed
directly on the connection with no surrounding transaction.  `failAt k`
makes the `k`-th statement fail (0 = surt upsert, 1 = entry upsert); the
effects of statements already executed persist. -/
def Db.insertCdx (failAt : Option Nat) (db : Db) (e : CdxEntry) :
    Except Unit Nat × Db :=
  if failAt = some 0 then (Except.error (), db)
  else
    let s := db.surtInsert e.key
    if failAt = some 1 then (Except.error (), s.2)
    else
      let en := s.2.entryInsertRow e s.1
      (Except.ok en.1, en.2)

/-- `entry::insert_entry_success`: `connection.begin()`, the snapshot
upsert, the `entry_success` upsert, `tx.commit()`.  A failure of any
statement inside the transaction (0 = snapshot upsert, 1 = entry_success
upsert, 2 = commit) rolls the whole transaction back. -/
def Db.insertEntrySuccess (failAt : Option Nat) (db : Db) (entryId : Nat)
    (digest : String) (correctDigest : Bool) (ts : Int) :
    Except Unit Nat × Db :=
  if failAt = some 0 ∨ failAt = some 1 ∨ failAt = some 2 then
    (Except.error (), db)
  else
    let sn := db.snapshotInsert digest
    let su := sn.2.successInsertRow entryId sn.1 correctDigest ts
    (Except.ok su.1, su.2)

/-! ## Item store: `store/src/items/mod.rs` -/

/-- A filesystem path, as a list of components. -/
abbrev FsPath := List (List Char)

/-- What a CAS file can hold: just created (`File::create`), an interrupted
zstd stream left by a failed copy, or a finished zstd frame of the source
bytes. -/
inductive FileData
  | created
  | interruptedFrame (bs : List Nat)
  | zstdFrame (bs : List Nat)
deriving DecidableEq, Repr

/-- The filesystem as an association list from paths to file data. -/
abbrev StoreFs := List (FsPath × FileData)

/-- Path lookup. -/
def StoreFs.get (fs : StoreFs) (p : FsPath) : Option FileData :=
  match fs.find? (fun e => decide (e.1 = p)) with
  | some e => some e.2
  | none => none

/-- `Path::exists`. -/
def StoreFs.pathExists (fs : StoreFs) (p : FsPath) : Bool :=
  (fs.get p).isSome

/-- Write (create or overwrite) a file. -/
def StoreFs.put (fs : StoreFs) (p : FsPath) (d : FileData) : StoreFs :=
  match fs with
  | [] => [(p, d)]
  | e :: rest => if e.1 = p then (p, d) :: rest else e :: StoreFs.put rest p d

/-- `ItemStore`: base directory and zstd compression level. -/
structure ItemStore where
  base : FsPath
  compressionLevel : Int
deriving DecidableEq, Repr

/-- `is_valid_char`: `('2'..='7').contains(&c) || c.is_ascii_uppercase()`. -/
def storeValidChar (c : Char) : Bool :=
  ('2' ≤ c && c ≤ '7') || ('A' ≤ c && c ≤ 'Z')

/-- `ItemStore::is_valid_digest`: 32 characters, all in the Base32
alphabet. -/
def ItemStore.isValidDigest (candidate : List Char) : Bool :=
  candidate.length = 32 && candidate.all storeValidChar

/-- `ItemStore::location`: `base/D[0..2]/D[2..4]/D.zst` for a valid digest,
`none` otherwise.  Pure: does not touch the filesystem. -/
def ItemStore.location (store : ItemStore) (digest : List Char) :
    Option FsPath :=
  if ItemStore.isValidDigest digest then
    some (store.base ++
      [digest.take 2, (digest.drop 2).take 2,
       digest ++ ('.' :: 'z' :: 's' :: 't' :: [])])
  else none

/-- The source bytes fed to `ItemStore::save`: the reader yields `bytes`
and then either ends or fails with an I/O error. -/
structure Reader where
  bytes : List Nat
  fails : Bool
deriving DecidableEq, Repr

/-- Errors of `ItemStore::save`. -/
inductive StoreError
  | invalidDigest (digest : List Char)
  | importIo (digest : List Char)
deriving DecidableEq, Repr

/-- `ItemStore::save`: resolve the canonical location (an invalid digest is
an error), return `none` if the path already exists; otherwise create the
file at the canonical path (`File::create`), stream-copy the reader through
the zstd encoder — a copy failure surfaces as `ImportIo`, with the
partially written file left in place — and finish the frame, returning the
byte count `std::io::copy` reported. -/
def ItemStore.save (store : ItemStore) (digest : List Char) (r : Reader)
    (fs : StoreFs) : Except StoreError (Option Nat) × StoreFs :=
  match store.location digest with
  | none => (Except.error (StoreError.invalidDigest digest), fs)
  | some path =>
    if fs.pathExists path then (Except.ok none, fs)
    else
      let fs1 := fs.put path FileData.created
      if r.fails then
        (Except.error (StoreError.importIo digest),
          fs1.put path (FileData.interruptedFrame r.bytes))
      else
        (Except.ok (some r.bytes.length), fs1.put path (FileData.zstdFrame r.bytes))

/-! ## Query assembly: `indexer/src/query.rs` and `indexer/src/lib.rs` -/

/-- `Range<A>` from `query.rs`. -/
inductive QRange (A : Type)
  | start (s : A)
  | stop (e : A)
  | both (s e : A)
deriving DecidableEq, Repr

/-- `Query` from `query.rs`; timestamps are Unix seconds.  The hash sets
for slugs and years are modelled as lists. -/
structure Query where
  content : String
  gravatarHash : Option String
  dateRange : Option (QRange Int)
  patternSlugs : Option (List String)
  years : Option (List Nat)
deriving DecidableEq, Repr

/-- `Query::new`, parameterised by the MD5 hex function applied to the
lowercased gravatar email (the hash itself is outside the model): empty
slug and year vectors become absent filters. -/
def Query.new (md5Hex : String → String) (content : String)
    (gravatarEmail : Option String) (dateRange : Option (QRange Int))
    (patternSlugs : List String) (years : List Nat) : Query :=
  { content := content,
    gravatarHash := gravatarEmail.map md5Hex,
    dateRange := dateRange,
    patternSlugs := if patternSlugs.isEmpty then none else some patternSlugs,
    years := if years.isEmpty then none else some years }

/-- The tantivy query shapes built by `Index::to_tantivy_query`.  `parsed`
is the content query returned by the query parser (its semantics is a
parameter of `TQuery.matches`). -/
inductive TQuery
  | parsed
  | gravatarTerm (hash : String)
  | dateRangeQ (lower : Int) (upper : Int)
  | patternSet (facets : List String)
  | yearSet (facets : List String)
  | boolMust (parts : List TQuery)

/-- An indexed document, as the embedded query semantics sees it.  The
query parser is built over the `title` and `content` default fields, so the
parsed content query reads only those (field-scoped query strings are
outside this model). -/
structure IxDoc where
  title : String
  content : String
  gravatarHashes : List String
  timestamp : Int
  pattern : String
  year : Nat
deriving DecidableEq, Repr

/-- `tantivy::DateTime::MIN` modelled as an integer lower bound. -/
def tantivyDateMin : Int := -377705116800

/-- `tantivy::DateTime::MAX` modelled as an integer upper bound. -/
def tantivyDateMax : Int := 253402300799

/-- `Range::bounds`: inclusive start, exclusive end, with open ends clamped
to the date minimum and maximum. -/
def qrangeBounds (r : QRange Int) : Int × Int :=
  match r with
  | QRange.start s => (s, tantivyDateMax)
  | QRange.stop e => (tantivyDateMin, e)
  | QRange.both s e => (s, e)

/-- `Index::to_tantivy_query`: each absent filter contributes no clause; if
every filter is absent the parsed content query is returned directly,
otherwise a boolean MUST-all query. -/
def toTantivyQuery (q : Query) : TQuery :=
  let gravatarQ := q.gravatarHash.map (fun h => TQuery.gravatarTerm h)
  let dateQ := q.dateRange.map (fun r =>
    let b := qrangeBounds r
    TQuery.dateRangeQ b.1 b.2)
  let patternQ := q.patternSlugs.map (fun slugs =>
    TQuery.patternSet (slugs.map (fun s => String.append "/" s)))
  let yearQ := q.years.map (fun ys =>
    TQuery.yearSet (ys.map (fun y => String.append "/" (toString y))))
  if gravatarQ.isNone && dateQ.isNone && patternQ.isNone && yearQ.isNone then
    TQuery.parsed
  else
    TQuery.boolMust
      ([TQuery.parsed] ++ gravatarQ.toList ++ dateQ.toList ++
        patternQ.toList ++ yearQ.toList)

mutual

/-- Matching semantics of the embedded tantivy queries against a document;
`contentSem` gives the semantics of the parsed content query over the
document's title and content fields. -/
def TQuery.matches (contentSem : String → String → Bool) : TQuery → IxDoc → Bool
  | TQuery.parsed, d => contentSem d.title d.content
  | TQuery.gravatarTerm h, d => d.gravatarHashes.contains h
  | TQuery.dateRangeQ lo hi, d => decide (lo ≤ d.timestamp) && decide (d.timestamp < hi)
  | TQuery.patternSet fs, d => fs.contains (String.append "/" d.pattern)
  | TQuery.yearSet fs, d => fs.contains (String.append "/" (toString d.year))
  | TQuery.boolMust parts, d => TQuery.matchesAll contentSem parts d

/-- Conjunction of `TQuery.matches` over the MUST clauses of a boolean
query. -/
def TQuery.matchesAll (contentSem : String → String → Bool) :
    List TQuery → IxDoc → Bool
  | [], _ => true
  | p :: ps, d =>
    TQuery.matches contentSem p d && TQuery.matchesAll contentSem ps d

end

/-! # Theorems -/

/-! ## Stable sort helper lemmas -/

theorem orderedInsertBy_perm (le : α → α → Bool) (a : α) (l : List α) :
    (orderedInsertBy le a l).Perm (a :: l) := by
  induction l with
  | nil => simp [orderedInsertBy]
  | cons b bs ih =>
    simp only [orderedInsertBy]
    split
    · exact List.Perm.refl _
    · exact (ih.cons b).trans (List.Perm.swap a b bs)

theorem sortByStable_perm (le : α → α → Bool) (l : List α) :
    (sortByStable le l).Perm l := by
  induction l with
  | nil => simp [sortByStable]
  | cons a as ih =>
    simpa [sortByStable] using (orderedInsertBy_perm le a (sortByStable le as)).trans (ih.cons a)

theorem pairwise_orderedInsertBy {le : α → α → Bool}
    (trans : ∀ a b c, le a b = true → le b c = true → le a c = true)
    (total : ∀ a b, le a b = true ∨ le b a = true)
    (a : α) {l : List α} (hl : l.Pairwise (fun x y => le x y = true)) :
    (orderedInsertBy le a l).Pairwise (fun x y => le x y = true) := by
  induction l with
  | nil => simp [orderedInsertBy]
  | cons b bs ih =>
    rcases List.pairwise_cons.mp hl with ⟨hb, hbs⟩
    simp only [orderedInsertBy]
    split
    · rename_i hab
      refine List.pairwise_cons.mpr ⟨?_, hl⟩
      intro y hy
      rcases List.mem_cons.mp hy with rfl | hy
      · exact hab
      · exact trans a b y hab (hb y hy)
    · rename_i hab
      refine List.pairwise_cons.mpr ⟨?_, ih hbs⟩
      intro y hy
      have hy' : y ∈ a :: bs := (orderedInsertBy_perm le a bs).mem_iff.mp hy
      rcases List.mem_cons.mp hy' with rfl | hy'
      · rcases total y b with hyb | hby
        · exact absurd hyb hab
        · exact hby
      · exact hb y hy'

theorem sortByStable_pairwise {le : α → α → Bool}
    (trans : ∀ a b c, le a b = true → le b c = true → le a c = true)
    (total : ∀ a b, le a b = true ∨ le b a = true) (l : List α) :
    (sortByStable le l).Pairwise (fun x y => le x y = true) := by
  induction l with
  | nil => simp [sortByStable]
  | cons a as ih =>
    simpa [sortByStable] using pairwise_orderedInsertBy trans total a ih

theorem filter_orderedInsertBy_pos {p : α → Bool} {le : α → α → Bool} {a : α}
    (hpa : p a = true) :
    ∀ {l : List α}, (∀ c ∈ l, p c = true → le a c = true) →
      (orderedInsertBy le a l).filter p = a :: l.filter p := by
  intro l
  induction l with
  | nil => simp [orderedInsertBy, hpa]
  | cons b bs ih =>
    intro h
    simp only [orderedInsertBy]
    split
    · simp [List.filter_cons, hpa]
    · rename_i hab
      have hpb : p b = false := by
        cases hpb : p b
        · rfl
        · exact absurd (h b (List.mem_cons_self b bs) hpb) hab
      have := ih (fun c hc hpc => h c (List.mem_cons_of_mem b hc) hpc)
      simp [List.filter_cons, hpb, this]

theorem filter_orderedInsertBy_neg {p : α → Bool} {le : α → α → Bool} {a : α}
    (hpa : p a = false) (l : List α) :
    (orderedInsertBy le a l).filter p = l.filter p := by
  induction l with
  | nil => simp [orderedInsertBy, hpa]
  | cons b bs ih =>
    simp only [orderedInsertBy]
    split
    · simp [List.filter_cons, hpa]
    · simp [List.filter_cons, ih]

theorem sortByStable_filter {p : α → Bool} {le : α → α → Bool}
    (hclass : ∀ x y, p x = true → p y = true → le x y = true) (l : List α) :
    (sortByStable le l).filter p = l.filter p := by
  induction l with
  | nil => simp [sortByStable]
  | cons a as ih =>
    simp only [sortByStable]
    cases hpa : p a
    · rw [filter_orderedInsertBy_neg hpa, ih]
      simp [List.filter_cons, hpa]
    · rw [filter_orderedInsertBy_pos hpa (fun c _ hpc => hclass a c hpa hpc), ih]
      simp [List.filter_cons, hpa]

/-! ## List decomposition helper -/

theorem takeWhile_lt_split {p : α → Bool} {s : List α}
    (h : (s.takeWhile p).length < s.length) :
    ∃ c, p c = false ∧
      s = s.takeWhile p ++ c :: s.drop ((s.takeWhile p).length + 1) := by
  have hds : s.takeWhile p ++ s.dropWhile p = s := List.takeWhile_append_dropWhile p s
  have hne : s.dropWhile p ≠ [] := by
    intro hnil
    have hlen := congrArg List.length hds
    rw [hnil] at hlen
    simp at hlen
    omega
  obtain ⟨c, cs, hcs⟩ := List.exists_cons_of_ne_nil hne
  have hpc : p c = false := by
    have := List.head_dropWhile_not p s hne
    simpa [hcs] using this
  have hsplit : s = (s.takeWhile p ++ [c]) ++ cs := by
    conv_lhs => rw [← hds, hcs]
    simp
  have hdrop : s.drop ((s.takeWhile p).length + 1) = cs := by
    calc s.drop ((s.takeWhile p).length + 1)
        = ((s.takeWhile p ++ [c]) ++ cs).drop ((s.takeWhile p).length + 1) := by
          rw [← hsplit]
      _ = cs := List.drop_left' (by simp)
  refine ⟨c, hpc, ?_⟩
  rw [hdrop]
  simpa using hsplit

/-! ## C7: SURT round trip -/

/-- C7: for every string that `Surt::from_str` parses successfully,
printing the parsed value reproduces the input exactly. -/
theorem surt_roundtrip (s : List Char) (v : Surt)
    (h : Surt.fromStr s = Except.ok v) : Surt.print v = s := by
  simp only [Surt.fromStr] at h
  split at h
  · exact absurd h (by simp)
  split at h
  · exact absurd h (by simp)
  split at h
  · exact absurd h (by simp)
  split at h
  · exact absurd h (by simp)
  rename_i hlow hdom hpanic hpath
  cases h
  simp only [Surt.print]
  rw [List.intercalate_splitOn]
  have hlt : (s.takeWhile (fun c => c != ')')).length < s.length := by omega
  obtain ⟨c, hpc, hsplit⟩ := takeWhile_lt_split hlt
  have hc : c = ')' := by
    simpa using hpc
  subst hc
  conv_rhs => rw [hsplit]
  simp

/-- C7 witness: a concrete successful parse and its round trip. -/
theorem surt_roundtrip_witness :
    Surt.fromStr ['c', 'o', 'm', ',', 'e', 'x', 'a', 'm', 'p', 'l', 'e', ')', '/'] =
      Except.ok
        { domain := [['c', 'o', 'm'], ['e', 'x', 'a', 'm', 'p', 'l', 'e']],
          path := ['/'] } ∧
    Surt.print
        { domain := [['c', 'o', 'm'], ['e', 'x', 'a', 'm', 'p', 'l', 'e']],
          path := ['/'] } =
      ['c', 'o', 'm', ',', 'e', 'x', 'a', 'm', 'p', 'l', 'e', ')', '/'] := by
  constructor
  · decide
  · exact surt_roundtrip _ _ (by decide)

/-! ## C8 and C9: TopNComputer invariants -/

theorem updateDoc_some_docs :
    ∀ {l : List ComparableDoc} {f : ℚ} {d : Nat} {l' : List ComparableDoc},
      updateDoc l f d = some l' →
      l'.map (fun c => c.doc) = l.map (fun c => c.doc) := by
  intro l
  induction l with
  | nil => intro f d l' h; simp [updateDoc] at h
  | cons c rest ih =>
    intro f d l' h
    simp only [updateDoc] at h
    split at h
    · rename_i hcd
      cases h
      simp only [List.map_cons]
      split <;> simp
    · cases hrest : updateDoc rest f d with
      | none => rw [hrest] at h; simp at h
      | some l2 =>
        rw [hrest] at h
        simp only [Option.map_some'] at h
        cases h
        simp [ih hrest]

theorem updateDoc_none_docs :
    ∀ {l : List ComparableDoc} {f : ℚ} {d : Nat},
      updateDoc l f d = none → d ∉ l.map (fun c => c.doc) := by
  intro l
  induction l with
  | nil => intro f d _; simp
  | cons c rest ih =>
    intro f d h
    simp only [updateDoc] at h
    split at h
    · simp at h
    · rename_i hcd
      cases hrest : updateDoc rest f d with
      | some l2 => rw [hrest] at h; simp at h
      | none =>
        intro hmem
        rcases List.mem_cons.mp hmem with he | hmem2
        · exact hcd he.symm
        · exact ih hrest hmem2

theorem length_sortByStable (le : α → α → Bool) (l : List α) :
    (sortByStable le l).length = l.length :=
  (sortByStable_perm le l).length_eq

theorem truncateTopN_topN (s : TopNComputer) :
    ((s.truncateTopN).2).topN = s.topN := rfl

theorem truncateTopN_threshold (s : TopNComputer) :
    ((s.truncateTopN).2).threshold = s.threshold := rfl

theorem truncateTopN_length (s : TopNComputer) :
    ((s.truncateTopN).2).buffer.length = min s.topN s.buffer.length := by
  simp [TopNComputer.truncateTopN, length_sortByStable]

theorem truncateTopN_subset (s : TopNComputer) :
    ∀ x ∈ ((s.truncateTopN).2).buffer, x ∈ s.buffer := by
  intro x hx
  simp only [TopNComputer.truncateTopN] at hx
  exact (sortByStable_perm ComparableDoc.le s.buffer).mem_iff.mp
    (List.mem_of_mem_take hx)

theorem truncateTopN_docs_nodup {s : TopNComputer}
    (h : (s.buffer.map (fun c => c.doc)).Nodup) :
    ((((s.truncateTopN).2).buffer).map (fun c => c.doc)).Nodup := by
  simp only [TopNComputer.truncateTopN]
  rw [List.map_take]
  refine List.Nodup.sublist (List.take_sublist _ _) ?_
  exact (((sortByStable_perm ComparableDoc.le s.buffer).map (fun c => c.doc)).nodup_iff).mpr h

theorem topN_lt_cap (s : TopNComputer) : s.topN < s.cap := by
  have h1 := Nat.le_max_left s.topN 1
  have h2 := Nat.le_max_right s.topN 1
  simp only [TopNComputer.cap]
  omega

theorem pushRest_docs_nodup {s : TopNComputer} {f : ℚ} {d : Nat}
    (hnd : (s.buffer.map (fun c => c.doc)).Nodup)
    (hd : d ∉ s.buffer.map (fun c => c.doc)) :
    (((s.pushRest f d).buffer).map (fun c => c.doc)).Nodup := by
  simp only [TopNComputer.pushRest]
  split
  · have hnd' := truncateTopN_docs_nodup hnd
    have hd' : d ∉ (((s.truncateTopN).2).buffer).map (fun c => c.doc) := by
      intro hmem
      rcases List.mem_map.mp hmem with ⟨x, hx, hxd⟩
      exact hd (List.mem_map.mpr ⟨x, truncateTopN_subset s x hx, hxd⟩)
    rw [List.map_append]
    refine ((List.perm_append_singleton _ _).nodup_iff).mpr ?_
    exact List.nodup_cons.mpr ⟨hd', hnd'⟩
  · rw [List.map_append]
    refine ((List.perm_append_singleton _ _).nodup_iff).mpr ?_
    exact List.nodup_cons.mpr ⟨hd, hnd⟩

theorem push_docs_nodup {s : TopNComputer} {f : ℚ} {d : Nat}
    (hnd : (s.buffer.map (fun c => c.doc)).Nodup)
    (hd : d ∉ s.buffer.map (fun c => c.doc)) :
    (((s.push f d).buffer).map (fun c => c.doc)).Nodup := by
  cases hth : s.threshold with
  | none => simp only [TopNComputer.push, hth]; exact pushRest_docs_nodup hnd hd
  | some t =>
    simp only [TopNComputer.push, hth]
    split
    · exact hnd
    · exact pushRest_docs_nodup hnd hd

theorem pushOrUpdateRest_docs_nodup {s : TopNComputer} {f : ℚ} {d : Nat}
    (hnd : (s.buffer.map (fun c => c.doc)).Nodup) :
    (((s.pushOrUpdateRest f d).buffer).map (fun c => c.doc)).Nodup := by
  cases hupd : updateDoc s.buffer f d with
  | some buf =>
    simp only [TopNComputer.pushOrUpdateRest, hupd]
    simpa [updateDoc_some_docs hupd] using hnd
  | none =>
    have hd := updateDoc_none_docs hupd
    simp only [TopNComputer.pushOrUpdateRest, hupd]
    split
    · refine push_docs_nodup (truncateTopN_docs_nodup hnd) ?_
      intro hmem
      rcases List.mem_map.mp hmem with ⟨x, hx, hxd⟩
      exact hd (List.mem_map.mpr ⟨x, truncateTopN_subset s x hx, hxd⟩)
    · exact push_docs_nodup hnd hd

theorem pushOrUpdate_docs_nodup {s : TopNComputer} {f : ℚ} {d : Nat}
    (hnd : (s.buffer.map (fun c => c.doc)).Nodup) :
    (((s.pushOrUpdate f d).buffer).map (fun c => c.doc)).Nodup := by
  cases hth : s.threshold with
  | none =>
    simp only [TopNComputer.pushOrUpdate, hth]
    exact pushOrUpdateRest_docs_nodup hnd
  | some t =>
    simp only [TopNComputer.pushOrUpdate, hth]
    split
    · exact hnd
    · exact pushOrUpdateRest_docs_nodup hnd

/-- C8: across any sequence of `push_or_update` calls on a `TopNComputer`
started from `new`, the buffer never contains two entries with the same doc
value. -/
theorem topn_pushOrUpdate_docs_nodup (n : Nat) (ops : List (ℚ × Nat)) :
    (((TopNComputer.runPushOrUpdates n ops).buffer).map (fun c => c.doc)).Nodup := by
  suffices h : ∀ (s : TopNComputer), (s.buffer.map (fun c => c.doc)).Nodup →
      (((ops.foldl (fun s fd => s.pushOrUpdate fd.1 fd.2) s).buffer).map
        (fun c => c.doc)).Nodup by
    exact h _ (by simp [TopNComputer.new])
  induction ops with
  | nil => intro s hs; exact hs
  | cons op rest ih =>
    intro s hs
    exact ih _ (pushOrUpdate_docs_nodup hs)

theorem pushRest_topN (s : TopNComputer) (f : ℚ) (d : Nat) :
    (s.pushRest f d).topN = s.topN := by
  simp only [TopNComputer.pushRest]
  split <;> rfl

theorem push_topN (s : TopNComputer) (f : ℚ) (d : Nat) :
    (s.push f d).topN = s.topN := by
  cases hth : s.threshold with
  | none => simp only [TopNComputer.push, hth]; exact pushRest_topN s f d
  | some t =>
    simp only [TopNComputer.push, hth]
    split
    · rfl
    · exact pushRest_topN s f d

theorem pushOrUpdateRest_topN (s : TopNComputer) (f : ℚ) (d : Nat) :
    (s.pushOrUpdateRest f d).topN = s.topN := by
  cases hupd : updateDoc s.buffer f d with
  | some buf => simp only [TopNComputer.pushOrUpdateRest, hupd]
  | none =>
    simp only [TopNComputer.pushOrUpdateRest, hupd]
    split
    · rw [push_topN]; rfl
    · rw [push_topN]

theorem pushOrUpdate_topN (s : TopNComputer) (f : ℚ) (d : Nat) :
    (s.pushOrUpdate f d).topN = s.topN := by
  cases hth : s.threshold with
  | none => simp only [TopNComputer.pushOrUpdate, hth]; exact pushOrUpdateRest_topN s f d
  | some t =>
    simp only [TopNComputer.pushOrUpdate, hth]
    split
    · rfl
    · exact pushOrUpdateRest_topN s f d

theorem pushRest_length {s : TopNComputer} {f : ℚ} {d : Nat}
    (h : s.buffer.length ≤ s.cap) :
    (s.pushRest f d).buffer.length ≤ s.cap := by
  have hcap := topN_lt_cap s
  simp only [TopNComputer.pushRest]
  split
  · rename_i hfull
    have := truncateTopN_length s
    simp only [List.length_append, List.length_cons, List.length_nil]
    omega
  · rename_i hfull
    simp only [List.length_append, List.length_cons, List.length_nil]
    omega

theorem push_length {s : TopNComputer} {f : ℚ} {d : Nat}
    (h : s.buffer.length ≤ s.cap) :
    (s.push f d).buffer.length ≤ s.cap := by
  cases hth : s.threshold with
  | none => simp only [TopNComputer.push, hth]; exact pushRest_length h
  | some t =>
    simp only [TopNComputer.push, hth]
    split
    · exact h
    · exact pushRest_length h

theorem pushThreshold_length {s : TopNComputer} {m : ℚ} {f : ℚ} {d : Nat}
    (h : s.buffer.length ≤ s.cap) :
    ((({ s with threshold := some m } : TopNComputer)).push f d).buffer.length ≤
      s.cap := by
  have hc : (({ s with threshold := some m } : TopNComputer)).cap = s.cap := rfl
  have := push_length (s := { s with threshold := some m }) (f := f) (d := d)
    (by rw [hc]; exact h)
  rw [hc] at this
  exact this

theorem pushOrUpdateRest_length {s : TopNComputer} {f : ℚ} {d : Nat}
    (h : s.buffer.length ≤ s.cap) :
    (s.pushOrUpdateRest f d).buffer.length ≤ s.cap := by
  have hcap := topN_lt_cap s
  cases hupd : updateDoc s.buffer f d with
  | some buf =>
    have hlen : buf.length = s.buffer.length := by
      have := congrArg List.length (updateDoc_some_docs hupd)
      simpa using this
    simp only [TopNComputer.pushOrUpdateRest, hupd]
    simpa [hlen] using h
  | none =>
    simp only [TopNComputer.pushOrUpdateRest, hupd]
    split
    · rename_i hfull
      have htr := truncateTopN_length s
      have hc : ((s.truncateTopN).2).cap = s.cap := rfl
      have hlen2 : ((s.truncateTopN).2).buffer.length ≤ ((s.truncateTopN).2).cap := by
        rw [hc, truncateTopN_length]
        omega
      have := pushThreshold_length (s := (s.truncateTopN).2)
        (m := (s.truncateTopN).1) (f := f) (d := d) hlen2
      rw [hc] at this
      exact this
    · exact push_length h

theorem pushOrUpdate_length {s : TopNComputer} {f : ℚ} {d : Nat}
    (h : s.buffer.length ≤ s.cap) :
    (s.pushOrUpdate f d).buffer.length ≤ s.cap := by
  cases hth : s.threshold with
  | none => simp only [TopNComputer.pushOrUpdate, hth]; exact pushOrUpdateRest_length h
  | some t =>
    simp only [TopNComputer.pushOrUpdate, hth]
    split
    · exact h
    · exact pushOrUpdateRest_length h

theorem applyOp_topN (s : TopNComputer) (op : TopOp) :
    (s.applyOp op).topN = s.topN := by
  cases op with
  | push f d => exact push_topN s f d
  | pushOrUpdate f d => exact pushOrUpdate_topN s f d

theorem applyOp_length {s : TopNComputer} {op : TopOp}
    (h : s.buffer.length ≤ s.cap) :
    (s.applyOp op).buffer.length ≤ s.cap := by
  cases op with
  | push f d => exact push_length h
  | pushOrUpdate f d => exact pushOrUpdate_length h

theorem pushWriteIndex_lt {s : TopNComputer} {f : ℚ} {i : Nat}
    (h : s.buffer.length ≤ s.cap) (hw : s.pushWriteIndex f = some i) :
    i < s.cap := by
  have hcap := topN_lt_cap s
  have htr := truncateTopN_length s
  cases hth : s.threshold with
  | none =>
    simp only [TopNComputer.pushWriteIndex, hth, Option.some.injEq] at hw
    subst hw
    split
    · rename_i hfull; omega
    · rename_i hfull; omega
  | some t =>
    simp only [TopNComputer.pushWriteIndex, hth] at hw
    split at hw
    · simp at hw
    · simp only [Option.some.injEq] at hw
      subst hw
      split
      · rename_i hfull; omega
      · rename_i hfull; omega

/-- C9: across any sequence of `push` and `push_or_update` calls on a
`TopNComputer` started from `new(n)`, the buffer length never exceeds the
fixed capacity `2 * max n 1`, and from any state within capacity the
unchecked spare-capacity write performed by `push` lands at an index
strictly below the capacity. -/
theorem topn_capacity_bound (n : Nat) (ops : List TopOp) :
    (TopNComputer.runOps n ops).buffer.length ≤ 2 * max n 1 ∧
    (∀ (s : TopNComputer) (f : ℚ) (i : Nat), s.buffer.length ≤ s.cap →
      s.pushWriteIndex f = some i → i < s.cap) := by
  constructor
  · suffices h : ∀ (s : TopNComputer), s.buffer.length ≤ s.cap →
        (ops.foldl TopNComputer.applyOp s).buffer.length ≤
          (ops.foldl TopNComputer.applyOp s).cap ∧
        (ops.foldl TopNComputer.applyOp s).topN = s.topN by
      have h2 := h (TopNComputer.new n) (by simp [TopNComputer.new, TopNComputer.cap])
      have hcap : (TopNComputer.runOps n ops).cap = 2 * max n 1 := by
        simp only [TopNComputer.cap]
        rw [show (TopNComputer.runOps n ops).topN = n from h2.2]
      rw [← hcap]
      exact h2.1
    induction ops with
    | nil => intro s hs; exact ⟨hs, rfl⟩
    | cons op rest ih =>
      intro s hs
      have hstep := @applyOp_length s op hs
      have htn : (s.applyOp op).topN = s.topN := applyOp_topN s op
      have hcap2 : (s.applyOp op).cap = s.cap := by
        simp [TopNComputer.cap, htn]
      rw [← hcap2] at hstep
      have := ih (s.applyOp op) hstep
      exact ⟨this.1, by rw [List.foldl_cons]; rw [this.2, htn]⟩
  · intro s f i h hw
    exact pushWriteIndex_lt h hw

/-- C9 witness: the capacity bound at a concrete run, and a concrete
in-bounds spare-capacity write. -/
theorem topn_capacity_bound_witness :
    (TopNComputer.runOps 2 [TopOp.push 5 3, TopOp.pushOrUpdate 7 4]).buffer.length ≤
      2 * max 2 1 ∧
    0 < (TopNComputer.new 3).cap := by
  constructor
  · exact (topn_capacity_bound 2 [TopOp.push 5 3, TopOp.pushOrUpdate 7 4]).1
  · exact (topn_capacity_bound 2 []).2 (TopNComputer.new 3) 5 0 (by decide) (by decide)

/-! ## C1: Results::top snapshot ordering -/

theorem snapLe_iff (a b : ScoredDoc) : snapLe a b = true ↔ b.1 ≤ a.1 := by
  simp only [snapLe, snapCmp, fPCmp, ratCmp]
  split_ifs with h1 h2
  · exact iff_of_true rfl (le_of_lt h1)
  · exact iff_of_false (by decide) (not_le.mpr h2)
  · exact iff_of_true rfl (le_of_not_lt h2)

theorem snapLe_trans : ∀ a b c : ScoredDoc,
    snapLe a b = true → snapLe b c = true → snapLe a c = true := by
  intro a b c hab hbc
  exact (snapLe_iff _ _).mpr (le_trans ((snapLe_iff _ _).mp hbc) ((snapLe_iff _ _).mp hab))

theorem snapLe_total : ∀ a b : ScoredDoc, snapLe a b = true ∨ snapLe b a = true := by
  intro a b
  rcases le_total b.1 a.1 with h | h
  · exact Or.inl ((snapLe_iff _ _).mpr h)
  · exact Or.inr ((snapLe_iff _ _).mpr h)

theorem assocRemove_mem :
    ∀ {all : List (Nat × List ScoredDoc)} {k : Nat} {v : List ScoredDoc}
      {all' : List (Nat × List ScoredDoc)},
      assocRemove k all = some (v, all') →
      (k, v) ∈ all ∧ ∀ x ∈ all', x ∈ all := by
  intro all
  induction all with
  | nil => intro k v all' h; simp [assocRemove] at h
  | cons e rest ih =>
    intro k v all' h
    simp only [assocRemove] at h
    split at h
    · rename_i hk
      simp only [Option.some.injEq, Prod.mk.injEq] at h
      obtain ⟨hv, hall⟩ := h
      subst hv
      subst hall
      constructor
      · have he2 : (k, e.2) = e := by rw [← hk]
        rw [he2]
        exact List.mem_cons_self _ _
      · intro x hx
        exact List.mem_cons_of_mem _ hx
    · rename_i hk
      cases hrest : assocRemove k rest with
      | none => rw [hrest] at h; simp at h
      | some p2 =>
        rw [hrest] at h
        simp only [Option.map_some', Option.some.injEq, Prod.mk.injEq] at h
        obtain ⟨hv, hall⟩ := h
        subst hv
        subst hall
        obtain ⟨hm, hsub⟩ := ih hrest
        constructor
        · exact List.mem_cons_of_mem _ hm
        · intro x hx
          rcases List.mem_cons.mp hx with rfl | hx2
          · exact List.mem_cons_self _ _
          · exact List.mem_cons_of_mem _ (hsub x hx2)

theorem topAux_spec :
    ∀ (tn : List ComparableDoc) (all : List (Nat × List ScoredDoc))
      (out : List (ℚ × Nat × List ScoredDoc)),
      Results.topAux tn all = some out →
      ∀ e ∈ out, ∃ snaps, (e.2.1, snaps) ∈ all ∧
        e.2.2 = sortByStable snapLe snaps := by
  intro tn
  induction tn with
  | nil =>
    intro all out h e he
    simp only [Results.topAux, Option.some.injEq] at h
    subst h
    exact absurd he (by simp)
  | cons c rest ih =>
    intro all out h e he
    simp only [Results.topAux] at h
    split at h
    · exact absurd h (by simp)
    · rename_i p hrem
      split at h
      · exact absurd h (by simp)
      · rename_i tl htl
        simp only [Option.some.injEq] at h
        subst h
        rcases List.mem_cons.mp he with rfl | he2
        · exact ⟨p.1, (assocRemove_mem hrem).1, rfl⟩
        · obtain ⟨snaps, hmem, hsort⟩ := ih p.2 tl htl e he2
          exact ⟨snaps, (assocRemove_mem hrem).2 _ hmem, hsort⟩

/-- C1 (amended): every per-SURT snapshot list produced by `Results::top`
is its stored snapshot list sorted by descending score; snapshots of equal
score keep their stored relative order (the sort is stable) and are not
reordered by doc address. -/
theorem results_top_sorted_stable (r : Results)
    (out : List (ℚ × Nat × List ScoredDoc)) (e : ℚ × Nat × List ScoredDoc)
    (h : r.top = some out) (he : e ∈ out) :
    ∃ snaps, (e.2.1, snaps) ∈ r.all ∧
      e.2.2.Pairwise (fun a b : ScoredDoc => b.1 ≤ a.1) ∧
      e.2.2.Perm snaps ∧
      ∀ q : ℚ, e.2.2.filter (fun y => decide (y.1 = q)) =
        snaps.filter (fun y => decide (y.1 = q)) := by
  obtain ⟨snaps, hmem, hsort⟩ := topAux_spec r.topN r.all out h e he
  refine ⟨snaps, hmem, ?_, ?_, ?_⟩
  · rw [hsort]
    exact (sortByStable_pairwise snapLe_trans snapLe_total snaps).imp
      (fun hxy => (snapLe_iff _ _).mp hxy)
  · rw [hsort]
    exact sortByStable_perm _ _
  · intro q
    rw [hsort]
    refine sortByStable_filter ?_ snaps
    intro x y hx hy
    rw [snapLe_iff]
    rw [of_decide_eq_true hx, of_decide_eq_true hy]

/-- C1 counterexample: on a result whose stored list holds two snapshots of
equal score in descending doc-address order, `Results::top` keeps that
order, so the output violates the claimed `(score desc, doc_address asc)`
ordering. -/
theorem results_top_tie_counterexample :
    Results.top
        { topN := [⟨(1 : ℚ), 7⟩],
          all := [(7, [((1 : ℚ), ⟨0, 5⟩), ((1 : ℚ), ⟨0, 3⟩)])] } =
      some [((1 : ℚ), 7, [((1 : ℚ), ⟨0, 5⟩), ((1 : ℚ), ⟨0, 3⟩)])] ∧
    ¬ List.Pairwise
        (fun a b : ScoredDoc =>
          b.1 ≤ a.1 ∧ (a.1 = b.1 → DocAddress.cmp a.2 b.2 = Ordering.lt))
        [((1 : ℚ), ⟨0, 5⟩), ((1 : ℚ), ⟨0, 3⟩)] := by
  constructor
  · decide
  · decide

/-- C1 witness: the amended theorem at a concrete one-snapshot result. -/
theorem results_top_sorted_stable_witness :
    ∃ snaps, ((7 : Nat), snaps) ∈ [((7 : Nat), [((2 : ℚ), (⟨0, 3⟩ : DocAddress))])] ∧
      List.Pairwise (fun a b : ScoredDoc => b.1 ≤ a.1)
        [((2 : ℚ), (⟨0, 3⟩ : DocAddress))] ∧
      List.Perm [((2 : ℚ), (⟨0, 3⟩ : DocAddress))] snaps ∧
      ∀ q : ℚ, [((2 : ℚ), (⟨0, 3⟩ : DocAddress))].filter (fun y => decide (y.1 = q)) =
        snaps.filter (fun y => decide (y.1 = q)) :=
  results_top_sorted_stable
    { topN := [⟨2, 7⟩], all := [(7, [((2 : ℚ), ⟨0, 3⟩)])] }
    [((2 : ℚ), 7, [((2 : ℚ), ⟨0, 3⟩)])]
    ((2 : ℚ), 7, [((2 : ℚ), ⟨0, 3⟩)])
    (by decide) (by decide)

/-! ## C4: the limit = 0 collector -/

/-- C4 counterexample: constructing the top-K collector with `limit = 0`
panics on the `assert!(limit >= 1)` in `TopDocs::new` instead of yielding a
collector, so running it cannot produce an empty result. -/
theorem topdocs_new_zero_counterexample : TopDocs.new 0 0 [] = none := by decide

/-- C4 (amended): `TopDocs::new` rejects `limit = 0` (the construction
panics), every collector built through `new` has `limit ≥ 1`, and the
`limit == 0` branch of `merge_fruits` — which would return the empty result
while ignoring every per-segment fruit — is unreachable through `new`. -/
theorem topdocs_limit_zero_amended :
    (∀ (off : Nat) (m : List (DocAddress × Nat)), TopDocs.new 0 off m = none) ∧
    (∀ (lim off : Nat) (m : List (DocAddress × Nat)) (td : TopDocs),
      TopDocs.new lim off m = some td → 1 ≤ td.limit) ∧
    (∀ (td : TopDocs) (fruits : List Results), td.limit = 0 →
      td.mergeFruits fruits = Results.emptyR) := by
  refine ⟨?_, ?_, ?_⟩
  · intro off m
    rfl
  · intro lim off m td h
    simp only [TopDocs.new] at h
    split at h
    · rename_i hl
      simp only [Option.some.injEq] at h
      subst h
      exact hl
    · exact absurd h (by simp)
  · intro td fruits h
    simp [TopDocs.mergeFruits, h]

/-- C4 witness: the amended statement at concrete inputs. -/
theorem topdocs_limit_zero_amended_witness :
    TopDocs.new 0 5 [] = none ∧
    1 ≤ ({ surtMap := [], limit := 3, offset := 0 } : TopDocs).limit ∧
    TopDocs.mergeFruits { surtMap := [], limit := 0, offset := 0 } [] =
      Results.emptyR :=
  ⟨topdocs_limit_zero_amended.1 5 [],
   topdocs_limit_zero_amended.2.1 3 0 [] _ (by decide),
   topdocs_limit_zero_amended.2.2 _ [] (by decide)⟩

/-! ## C6: the downloader retry loop -/

theorem retryIfRun_count_le {α : Type} (attempts : Nat → Except DlError α) :
    ∀ (budget i : Nat), (retryIfRun attempts budget i).2 ≤ i + budget + 1 := by
  intro budget
  induction budget with
  | zero =>
    intro i
    rw [retryIfRun]
    cases attempts i with
    | ok v => simp
    | error e =>
      by_cases hr : shouldRetry e = true
      · simp [hr]
      · simp [hr]
  | succ n ih =>
    intro i
    rw [retryIfRun]
    cases attempts i with
    | ok v => simp
    | error e =>
      by_cases hr : shouldRetry e = true
      · simp only [hr, if_true]
        have := ih (i + 1)
        omega
      · simp [hr]

theorem downloadRun_count {α : Type} (attempts : Nat → Except DlError α) :
    (downloadRun attempts).2 = (retryIfRun attempts MAX_RETRIES 0).2 := by
  simp only [downloadRun]
  split <;> rfl

/-- C6 (amended): the download retry loop makes at most 8 attempts in total
(one initial attempt plus `MAX_RETRIES = 7` retries), and an attempt error
is retried exactly when it is HTTP 429, an HTTP 5xx status, or any HTTP
client error (body-read errors included, but not only those). -/
theorem download_retry_amended {α : Type} (attempts : Nat → Except DlError α) :
    (downloadRun attempts).2 ≤ 8 ∧
    (∀ e, shouldRetry e = amendedRetryable e) := by
  constructor
  · rw [downloadRun_count]
    have := retryIfRun_count_le attempts MAX_RETRIES 0
    simpa [MAX_RETRIES] using this
  · intro e
    cases e with
    | unexpectedStatus code =>
      by_cases h : code = 429
      · subst h
        simp [shouldRetry, amendedRetryable]
      · simp [shouldRetry, amendedRetryable, h]
    | client isBody => rfl
    | io => rfl
    | unexpectedRedirect => rfl
    | unexpectedRedirectUrl => rfl
    | invalidUtf8 => rfl

/-- C6 counterexample: a client error that is not a body-read error is
retried by the code but is outside the claimed retry set, and a persistent
retryable error produces 8 attempts, more than the claimed 7. -/
theorem download_retry_counterexample :
    shouldRetry (DlError.client false) = true ∧
    specRetryable (DlError.client false) = false ∧
    (downloadRun (fun _ => Except.error (DlError.client false) :
        Nat → Except DlError Unit)).2 = 8 ∧
    ¬ (downloadRun (fun _ => Except.error (DlError.client false) :
        Nat → Except DlError Unit)).2 ≤ 7 := by
  refine ⟨rfl, rfl, by decide, by decide⟩

/-! ## C2: catalog transaction boundaries -/

theorem surtInsert_entry (db : Db) (v : String) :
    ((db.surtInsert v).2).entry = db.entry := by
  cases h : db.surt.find? (fun r => r.2 == v) with
  | some r => simp [Db.surtInsert, h]
  | none => simp [Db.surtInsert, h]

/-- C2 counterexample: `entry::insert` runs the surt upsert and the entry
upsert with no surrounding transaction, so a failure of the entry statement
leaves the surt table already mutated — a partial write. -/
theorem catalog_insert_counterexample :
    (Db.insertCdx (some 1) Db.empty sampleCdxEntry).1 = Except.error () ∧
    (Db.insertCdx (some 1) Db.empty sampleCdxEntry).2 ≠ Db.empty := by
  refine ⟨by decide, by decide⟩

/-- C2 (amended): `entry::insert_entry_success` runs its snapshot and
`entry_success` upserts inside one transaction, so any mid-sequence failure
leaves the catalog unchanged; `entry::insert` runs the surt and entry
upserts with no transaction, so a mid-sequence failure never leaves a
partial `entry` write but can leave the surt upsert of the first statement
in place. -/
theorem catalog_insert_amended (failAt : Option Nat) (db : Db) (entryId : Nat)
    (digest : String) (correct : Bool) (ts : Int) (e : CdxEntry) :
    ((Db.insertEntrySuccess failAt db entryId digest correct ts).1 =
        Except.error () →
      (Db.insertEntrySuccess failAt db entryId digest correct ts).2 = db) ∧
    ((Db.insertCdx failAt db e).1 = Except.error () →
      ((Db.insertCdx failAt db e).2).entry = db.entry ∧
      ((Db.insertCdx failAt db e).2 = db ∨
        (Db.insertCdx failAt db e).2 = (db.surtInsert e.key).2)) := by
  constructor
  · intro h
    by_cases hf : failAt = some 0 ∨ failAt = some 1 ∨ failAt = some 2
    · simp [Db.insertEntrySuccess, hf]
    · simp [Db.insertEntrySuccess, hf] at h
  · intro h
    by_cases h0 : failAt = some 0
    · simp [Db.insertCdx, h0]
    · by_cases h1 : failAt = some 1
      · simp [Db.insertCdx, h0, h1, surtInsert_entry]
      · simp [Db.insertCdx, h0, h1] at h

/-- C2 witness: the amended statement at concrete inputs. -/
theorem catalog_insert_amended_witness :
    (Db.insertEntrySuccess (some 0) Db.empty 1 "d" true 0).2 = Db.empty ∧
    (((Db.insertCdx (some 1) Db.empty sampleCdxEntry).2).entry =
        Db.empty.entry ∧
      ((Db.insertCdx (some 1) Db.empty sampleCdxEntry).2 = Db.empty ∨
        (Db.insertCdx (some 1) Db.empty sampleCdxEntry).2 =
          (Db.empty.surtInsert sampleCdxEntry.key).2)) :=
  ⟨(catalog_insert_amended (some 0) Db.empty 1 "d" true 0 sampleCdxEntry).1
      (by decide),
   (catalog_insert_amended (some 1) Db.empty 1 "d" true 0 sampleCdxEntry).2
      (by decide)⟩

/-! ## C3: item store save and the canonical path -/

theorem StoreFs.get_put (fs : StoreFs) (p : FsPath) (d : FileData) :
    (StoreFs.put fs p d).get p = some d := by
  induction fs with
  | nil => simp [StoreFs.put, StoreFs.get]
  | cons e rest ih =>
    simp only [StoreFs.put]
    split
    · simp [StoreFs.get]
    · rename_i hep
      simp only [StoreFs.get] at ih ⊢
      rw [List.find?_cons_of_neg]
      · exact ih
      · simp [hep]

/-- C3 (amended): when `ItemStore::save` starts writing a fresh digest and
the copy from the reader fails, it returns the `ImportIo` error and leaves
the partially written file at the canonical path `location(D)` — the
implementation creates the target file directly rather than writing to a
temporary sibling and renaming. -/
theorem store_save_partial (store : ItemStore) (digest : List Char)
    (r : Reader) (fs : StoreFs) (path : FsPath)
    (hloc : store.location digest = some path)
    (hnew : fs.pathExists path = false)
    (hfail : r.fails = true) :
    (store.save digest r fs).1 = Except.error (StoreError.importIo digest) ∧
    ((store.save digest r fs).2).pathExists path = true ∧
    ((store.save digest r fs).2).get path =
      some (FileData.interruptedFrame r.bytes) := by
  have h1 : store.save digest r fs =
      (Except.error (StoreError.importIo digest),
        (fs.put path FileData.created).put path
          (FileData.interruptedFrame r.bytes)) := by
    simp [ItemStore.save, hloc, hnew, hfail]
  rw [h1]
  refine ⟨rfl, ?_, StoreFs.get_put _ _ _⟩
  simp [StoreFs.pathExists, StoreFs.get_put]

/-- C3 counterexample: a concrete failed save after which a file does exist
under the canonical CAS path for the digest. -/
theorem store_save_counterexample :
    (ItemStore.save { base := [['b']], compressionLevel := 14 }
        (List.replicate 32 'A') { bytes := [1, 2, 3], fails := true } []).1 =
      Except.error (StoreError.importIo (List.replicate 32 'A')) ∧
    ItemStore.location { base := [['b']], compressionLevel := 14 }
        (List.replicate 32 'A') =
      some [['b'], ['A', 'A'], ['A', 'A'],
        List.replicate 32 'A' ++ ['.', 'z', 's', 't']] ∧
    ((ItemStore.save { base := [['b']], compressionLevel := 14 }
        (List.replicate 32 'A') { bytes := [1, 2, 3], fails := true } []).2).pathExists
      [['b'], ['A', 'A'], ['A', 'A'],
        List.replicate 32 'A' ++ ['.', 'z', 's', 't']] = true := by
  refine ⟨by decide, by decide, by decide⟩

/-- C3 witness: the amended statement at a concrete store, digest, failing
reader, and empty filesystem. -/
theorem store_save_partial_witness :
    (ItemStore.save { base := [['b']], compressionLevel := 14 }
        (List.replicate 32 'A') { bytes := [7], fails := true } []).1 =
      Except.error (StoreError.importIo (List.replicate 32 'A')) ∧
    ((ItemStore.save { base := [['b']], compressionLevel := 14 }
        (List.replicate 32 'A') { bytes := [7], fails := true } []).2).pathExists
      [['b'], ['A', 'A'], ['A', 'A'],
        List.replicate 32 'A' ++ ['.', 'z', 's', 't']] = true ∧
    ((ItemStore.save { base := [['b']], compressionLevel := 14 }
        (List.replicate 32 'A') { bytes := [7], fails := true } []).2).get
      [['b'], ['A', 'A'], ['A', 'A'],
        List.replicate 32 'A' ++ ['.', 'z', 's', 't']] =
      some (FileData.interruptedFrame [7]) :=
  store_save_partial _ _ _ _ _ (by decide) (by decide) (by decide)

/-! ## C5: digest parsing -/

theorem natToBytes_length : ∀ (k v : Nat), (natToBytes k v).length = k := by
  intro k
  induction k with
  | zero => intro v; rfl
  | succ n ih => intro v; simp [natToBytes, ih]

theorem b32Val_ne_eq {c : Char} (h : (b32Val c).isSome) : (c != '=') = true := by
  by_contra hne
  have hc : c = '=' := by simpa using hne
  subst hc
  exact absurd h (by decide)

theorem mapM_option_isSome {f : α → Option β} :
    ∀ {l : List α}, (∀ a ∈ l, (f a).isSome) →
      ∃ bs, l.mapM f = some bs ∧ bs.length = l.length := by
  intro l
  induction l with
  | nil => intro _; exact ⟨[], rfl, rfl⟩
  | cons a rest ih =>
    intro h
    obtain ⟨b, hb⟩ := Option.isSome_iff_exists.mp (h a (List.mem_cons_self a rest))
    obtain ⟨bs, hbs, hlen⟩ := ih (fun x hx => h x (List.mem_cons_of_mem a hx))
    refine ⟨b :: bs, ?_, by simp [hlen]⟩
    rw [List.mapM_cons, hb, hbs]
    rfl


theorem b32DecodeBlock_valid {cs : List Char} (h8 : cs.length = 8)
    (isLast : Bool) (h : ∀ c ∈ cs, (b32Val c).isSome) :
    ∃ bs, b32DecodeBlock cs isLast = Except.ok bs ∧ bs.length = 5 := by
  have htw : cs.takeWhile (fun c => c != '=') = cs :=
    List.takeWhile_eq_self_iff.mpr (fun c hc => b32Val_ne_eq (h c hc))
  obtain ⟨vals, hvals, hvlen⟩ := mapM_option_isSome h
  refine ⟨natToBytes 5 (vals.foldl (fun acc v => acc * 32 + v) 0 / 2 ^ 0), ?_,
    natToBytes_length 5 _⟩
  simp only [b32DecodeBlock, htw]
  rw [List.drop_length, h8, hvals]
  simp [b32AllowedDataLen, Nat.mod_one]

theorem b32Decode_valid :
    ∀ (cs : List Char), (∀ c ∈ cs, (b32Val c).isSome) → cs.length % 8 = 0 →
      ∃ bs, b32Decode cs = Except.ok bs ∧ bs.length = cs.length / 8 * 5 := by
  intro cs
  rcases cs with _ | ⟨a0, _ | ⟨a1, _ | ⟨a2, _ | ⟨a3, _ | ⟨a4, _ | ⟨a5, _ |
    ⟨a6, _ | ⟨a7, rest⟩⟩⟩⟩⟩⟩⟩⟩
  · intro _ _
    exact ⟨[], rfl, rfl⟩
  · intro _ hlen; simp at hlen
  · intro _ hlen; simp at hlen
  · intro _ hlen; simp at hlen
  · intro _ hlen; simp at hlen
  · intro _ hlen; simp at hlen
  · intro _ hlen; simp at hlen
  · intro _ hlen; simp at hlen
  · intro hv hlen
    have hvblk : ∀ c ∈ [a0, a1, a2, a3, a4, a5, a6, a7], (b32Val c).isSome := by
      intro c hc
      apply hv
      simp only [List.mem_cons, List.not_mem_nil, or_false] at hc
      simp [List.mem_cons]
      tauto
    obtain ⟨bs1, hbs1, hlen1⟩ :=
      @b32DecodeBlock_valid [a0, a1, a2, a3, a4, a5, a6, a7] (by simp)
        rest.isEmpty hvblk
    have hrest : rest.length % 8 = 0 := by
      simp only [List.length_cons] at hlen
      omega
    obtain ⟨bs2, hbs2, hlen2⟩ := b32Decode_valid rest
      (fun c hc => hv c (by simp [hc])) hrest
    refine ⟨bs1 ++ bs2, ?_, ?_⟩
    · simp only [b32Decode, hbs1, hbs2]
    · obtain ⟨k, hk⟩ := Nat.dvd_of_mod_eq_zero hrest
      simp only [List.length_append, List.length_cons, hlen1, hlen2, hk]
      have h1 : (8 * k) / 8 = k := Nat.mul_div_cancel_left k (by omega)
      have h2 : (8 * k + 8) / 8 = k + 1 := by
        rw [show 8 * k + 8 = 8 * (k + 1) by ring]
        exact Nat.mul_div_cancel_left (k + 1) (by omega)
      rw [h1]
      have h3 : 8 * k + 1 + 1 + 1 + 1 + 1 + 1 + 1 + 1 = 8 * (k + 1) := by ring
      rw [h3, Nat.mul_div_cancel_left (k + 1) (by omega)]
      ring

/-- C5 (amended): `Digest::from_str` returns `Valid` on every 32-character
canonical Base32 string (which decodes to exactly 20 bytes), returns
`Invalid` with the input kept verbatim on every string of another length
and on 32-character strings that decode to fewer than 20 bytes (padded
Base32), and returns the `Decoding` error — rather than `Invalid` — on
32-character strings that are not valid Base32. -/
theorem digest_fromStr_cases (s : List Char) :
    (s.length ≠ 32 → Digest.fromStr s = Except.ok (Digest.invalid s)) ∧
    (s.length = 32 → (∀ c ∈ s, (b32Val c).isSome) →
      ∃ bs, b32Decode s = Except.ok bs ∧ bs.length = 20 ∧
        Digest.fromStr s = Except.ok (Digest.valid bs)) ∧
    (∀ e, s.length = 32 → b32Decode s = Except.error e →
      Digest.fromStr s = Except.error DigestError.decoding) ∧
    (∀ bs, s.length = 32 → b32Decode s = Except.ok bs → bs.length ≠ 20 →
      Digest.fromStr s = Except.ok (Digest.invalid s)) := by
  refine ⟨?_, ?_, ?_, ?_⟩
  · intro h
    simp [Digest.fromStr, h]
  · intro h32 hv
    obtain ⟨bs, hbs, hlen⟩ := b32Decode_valid s hv (by rw [h32])
    have hlen20 : bs.length = 20 := by rw [hlen, h32]
    refine ⟨bs, hbs, hlen20, ?_⟩
    simp [Digest.fromStr, h32, hbs, hlen20]
  · intro e h32 herr
    simp [Digest.fromStr, h32, herr]
  · intro bs h32 hok hne
    simp [Digest.fromStr, h32, hok, hne]

/-- C5 counterexample: a 32-character string that is not valid Base32 makes
`Digest::from_str` return an error instead of `Digest::Invalid`, so parsing
does not succeed on every input. -/
theorem digest_fromStr_counterexample :
    Digest.fromStr (List.replicate 32 '1') = Except.error DigestError.decoding := by
  decide

/-- C5 witness: a concrete canonical 32-character Base32 string decodes to
20 bytes and parses as `Valid`. -/
theorem digest_fromStr_cases_witness :
    ∃ bs, b32Decode (List.replicate 32 'A') = Except.ok bs ∧ bs.length = 20 ∧
      Digest.fromStr (List.replicate 32 'A') = Except.ok (Digest.valid bs) :=
  (digest_fromStr_cases (List.replicate 32 'A')).2.1 (by decide) (by decide)

/-! ## C10: empty filter lists -/

/-- C10: `Query::new` maps empty `pattern_slugs` and `years` vectors to
absent filters, and the assembled query then matches documents of every
pattern and every year (its result does not depend on those fields);
had the empty lists been kept as present-but-empty term sets, the
assembled query would match no document at all. -/
theorem query_empty_filters (md5Hex : String → String) (content : String)
    (grav : Option String) (dr : Option (QRange Int))
    (sem : String → String → Bool) (d : IxDoc) (p : String) (y : Nat) :
    (Query.new md5Hex content grav dr [] []).patternSlugs = none ∧
    (Query.new md5Hex content grav dr [] []).years = none ∧
    TQuery.matches sem (toTantivyQuery (Query.new md5Hex content grav dr [] []))
        { d with pattern := p, year := y } =
      TQuery.matches sem (toTantivyQuery (Query.new md5Hex content grav dr [] []))
        d ∧
    (∀ d2 : IxDoc,
      TQuery.matches sem
        (toTantivyQuery
          { Query.new md5Hex content grav dr [] [] with
            patternSlugs := some [] }) d2 = false) := by
  refine ⟨rfl, rfl, ?_, ?_⟩
  · cases grav <;> cases dr <;>
      simp [Query.new, toTantivyQuery, TQuery.matches, TQuery.matchesAll]
  · intro d2
    cases grav <;> cases dr <;>
      simp [Query.new, toTantivyQuery, TQuery.matches, TQuery.matchesAll]
